import Mathlib

/-
  Verification of the job-control core of a Unix shell job scheduler
  (shell_job_scheduler.c).

  The shallow embedding below translates the C source directly:

  * the global job queue `job_t jobs[MAX_JOBS]; int job_count;` becomes a
    `List Job` (the first `job_count` cells of the array, in order);
  * `next_job_id` is carried alongside in `ShellState`;
  * side effects (printf/perror output, signals sent via `kill`, the writes
    to the `fg_pid` designator and the `waitpid` call) are recorded as an
    explicit `List Action` trace returned by each operation;
  * the result of the kernel `waitpid` call in `wait_for_fg` is an input
    (`WaitRes`), since the kernel's answer is environment-determined.
-/

set_option autoImplicit false

namespace JobSched

def MAX_LINE : Nat := 1024
def MAX_JOBS : Nat := 100

/-- Job states, from `typedef enum { RUNNING, STOPPED, DONE } job_state_t`. -/
inductive JobState where
  | RUNNING
  | STOPPED
  | DONE
deriving DecidableEq, Repr

/-- One entry of the job queue, from `typedef struct { ... } job_t`. -/
structure Job where
  job_id : Int
  pid : Int
  state : JobState
  command : String
deriving DecidableEq, Repr

/-- The mutable globals `jobs`/`job_count` (as a list) and `next_job_id`. -/
structure ShellState where
  jobs : List Job
  next_job_id : Int
deriving DecidableEq, Repr

/-- Initial state: empty table, `next_job_id = 1`. -/
def initState : ShellState := { jobs := [], next_job_id := 1 }

/-- The `errno` values relevant to `waitpid` in this program. -/
inductive Errno where
  | ECHILD
  | EINTR
  | EINVAL
deriving DecidableEq, Repr

/-- The OS error text `perror` would append for each `errno` value. -/
def errnoStr : Errno → String
  | .ECHILD => "No child processes"
  | .EINTR => "Interrupted system call"
  | .EINVAL => "Invalid argument"

/-- Outcome of the blocking `waitpid(pid, &status, WUNTRACED)` call:
either a status (with `WIFSTOPPED(status)` recorded, since with `WUNTRACED`
the call returns on a stop as well as on a termination) or a failure. -/
inductive WaitRes where
  | ok (stopped : Bool)
  | err (e : Errno)
deriving DecidableEq, Repr

def SIGCONT : Nat := 18
def SIGKILL : Nat := 9

/-- Externally visible effects of an operation, in program order:
`print` is a `printf` to stdout, `errPrint` a `perror` line on stderr,
`sigsend` a `kill(pid, sig)` call, `setFg` a write to the `volatile
sig_atomic_t fg_pid` designator, and `waitCall` the blocking
`waitpid(pid, ..., WUNTRACED)` call. -/
inductive Action where
  | print (s : String)
  | errPrint (s : String)
  | sigsend (pid : Int) (sig : Nat)
  | setFg (v : Int)
  | waitCall (pid : Int)
deriving DecidableEq, Repr

/- ---------------------------------------------------------------- -/
/- `atoi`, as used on the builtins' job-id argument.                 -/
/- ---------------------------------------------------------------- -/

/-- C `isspace` on the default locale. -/
def isSpaceC (c : Char) : Bool :=
  c = ' ' || c = '\t' || c = '\n' || c = Char.ofNat 11 || c = Char.ofNat 12 || c = '\r'

/-- Accumulate the leading run of decimal digits, like `atoi`'s digit loop. -/
def digitsVal : List Char → Int → Int
  | [], acc => acc
  | c :: cs, acc =>
    if c.isDigit then digitsVal cs (acc * 10 + ((c.toNat : Int) - 48)) else acc

/-- `atoi` on a character list: skip whitespace, optional sign, digit run;
anything else (including an empty digit run) yields the value so far. -/
def atoiChars : List Char → Int
  | [] => 0
  | c :: cs =>
    if isSpaceC c then atoiChars cs
    else if c = '-' then - digitsVal cs 0
    else if c = '+' then digitsVal cs 0
    else digitsVal (c :: cs) 0

/-- C `atoi` (conversion failure yields 0; a numeric prefix is converted). -/
def atoi (s : String) : Int := atoiChars s.data

/- ---------------------------------------------------------------- -/
/- Job-table primitives.                                             -/
/- ---------------------------------------------------------------- -/

/-- `find_job_by_pid`: first table entry with the given pid. -/
def find_job_by_pid (t : List Job) (pid : Int) : Option Job :=
  t.find? (fun j => j.pid == pid)

/-- `find_job_by_id`: first table entry with the given job id. -/
def find_job_by_id (t : List Job) (job_id : Int) : Option Job :=
  t.find? (fun j => j.job_id == job_id)

/-- `remove_job`: delete the first entry with the given pid, shifting the
rest down (the loop `break`s after one removal). -/
def remove_job : List Job → Int → List Job
  | [], _ => []
  | j :: rest, pid => if j.pid = pid then rest else j :: remove_job rest pid

/-- `update_job_state`: set the state of the first entry with the given pid
(`find_job_by_pid` followed by a write through the pointer); no-op when the
pid is absent. -/
def update_job_state : List Job → Int → JobState → List Job
  | [], _, _ => []
  | j :: rest, pid, st =>
    if j.pid = pid then { j with state := st } :: rest
    else j :: update_job_state rest pid st

/-- The `bg` builtin's `job->state = RUNNING` write through the pointer
returned by `find_job_by_id`: set the state of the first entry with the
given job id. -/
def set_state_by_id : List Job → Int → JobState → List Job
  | [], _, _ => []
  | j :: rest, job_id, st =>
    if j.job_id = job_id then { j with state := st } :: rest
    else j :: set_state_by_id rest job_id st

/-- `add_job`: when the table is full print `Job queue full` and change
nothing; otherwise append an entry carrying `next_job_id` (then increment
it).  `strncpy(..., MAX_LINE - 1)` truncates the stored command to its
first `MAX_LINE - 1` characters. -/
def add_job (s : ShellState) (pid : Int) (command : String) (st : JobState) :
    ShellState × List Action :=
  if s.jobs.length ≥ MAX_JOBS then
    (s, [.print "Job queue full\n"])
  else
    ({ jobs := s.jobs ++ [{ job_id := s.next_job_id, pid := pid, state := st,
                            command := String.mk (command.data.take (MAX_LINE - 1)) }],
       next_job_id := s.next_job_id + 1 },
     [])

/- ---------------------------------------------------------------- -/
/- The synchronous foreground wait.                                  -/
/- ---------------------------------------------------------------- -/

/-- `wait_for_fg`: set `fg_pid = pid`, call `waitpid(pid, &status,
WUNTRACED)` once, `perror` on any failure other than `ECHILD`, then clear
`fg_pid`.  The returned status itself is ignored by the function. -/
def wait_for_fg (pid : Int) (w : WaitRes) : List Action :=
  [.setFg pid, .waitCall pid] ++
  (match w with
   | .ok _ => []
   | .err e =>
     if e = Errno.ECHILD then []
     else [.errPrint ("waitpid error: " ++ errnoStr e ++ "\n")]) ++
  [.setFg 0]

/- ---------------------------------------------------------------- -/
/- The launcher's parent-side paths (`execute_command`).              -/
/- ---------------------------------------------------------------- -/

/-- The command string rebuilt by the background branch:
`strcat` of each argument followed by a space. -/
def cmd_string (args : List String) : String :=
  args.foldl (fun acc a => acc ++ a ++ " ") ""

/-- Parent side of `execute_command` for a background job: `add_job` with
state `RUNNING`, then `printf("[%d] %d %s\n", jobs[job_count-1].job_id,
pid, cmd)` — note the banner reads the *last table entry*, whatever it is,
and nothing is ever done about an `add_job` failure. -/
def execute_command_bg (s : ShellState) (pid : Int) (args : List String) :
    ShellState × List Action :=
  let cmd := cmd_string args
  let p := add_job s pid cmd .RUNNING
  let banner :=
    match p.1.jobs.getLast? with
    | some j => [Action.print ("[" ++ toString j.job_id ++ "] " ++ toString pid
                   ++ " " ++ cmd ++ "\n")]
    | none => []
  (p.1, p.2 ++ banner)

/-- Parent side of `execute_command` for a foreground job: just
`wait_for_fg(pid)`; the table is untouched. -/
def execute_command_fg (s : ShellState) (pid : Int) (w : WaitRes) :
    ShellState × List Action :=
  (s, wait_for_fg pid w)

/- ---------------------------------------------------------------- -/
/- Builtins (`builtin_command`).                                      -/
/- ---------------------------------------------------------------- -/

/-- The `fg` builtin: usage line when the argument is missing; `atoi` the
argument; not-found report when `find_job_by_id` fails; otherwise
`SIGCONT` if the job is stopped, print the banner, `wait_for_fg(job->pid)`
and then — unconditionally — `remove_job(job->pid)`. -/
def fg_builtin (s : ShellState) (arg : Option String) (w : WaitRes) :
    ShellState × List Action :=
  match arg with
  | none => (s, [.print "Usage: fg <job_id>\n"])
  | some a =>
    let job_id := atoi a
    match find_job_by_id s.jobs job_id with
    | none => (s, [.print ("Job [" ++ toString job_id ++ "] not found\n")])
    | some j =>
      let conts := if j.state = JobState.STOPPED
                   then [Action.sigsend j.pid SIGCONT] else []
      ({ s with jobs := remove_job s.jobs j.pid },
       conts
         ++ [Action.print ("Bringing job [" ++ toString job_id
               ++ "] to foreground: " ++ j.command ++ "\n")]
         ++ wait_for_fg j.pid w)

/-- The `bg` builtin: usage line when the argument is missing; `atoi` the
argument; not-found report when the lookup fails; on a stopped job send
`SIGCONT`, set its state to `RUNNING` and report; otherwise report that it
is already running. -/
def bg_builtin (s : ShellState) (arg : Option String) :
    ShellState × List Action :=
  match arg with
  | none => (s, [.print "Usage: bg <job_id>\n"])
  | some a =>
    let job_id := atoi a
    match find_job_by_id s.jobs job_id with
    | none => (s, [.print ("Job [" ++ toString job_id ++ "] not found\n")])
    | some j =>
      if j.state = JobState.STOPPED then
        ({ s with jobs := set_state_by_id s.jobs job_id .RUNNING },
         [.sigsend j.pid SIGCONT,
          .print ("Job [" ++ toString job_id ++ "] continued in background: "
            ++ j.command ++ "\n")])
      else
        (s, [.print ("Job [" ++ toString job_id ++ "] is already running\n")])

/-- The `kill` builtin: usage line / not-found report as above; otherwise
`kill(job->pid, SIGKILL)` and a `terminated` report.  The table entry is
not removed here (the reaper removes it later). -/
def kill_builtin (s : ShellState) (arg : Option String) :
    ShellState × List Action :=
  match arg with
  | none => (s, [.print "Usage: kill <job_id>\n"])
  | some a =>
    let job_id := atoi a
    match find_job_by_id s.jobs job_id with
    | none => (s, [.print ("Job [" ++ toString job_id ++ "] not found\n")])
    | some j =>
      (s, [.sigsend j.pid SIGKILL,
           .print ("Job [" ++ toString job_id ++ "] terminated\n")])

/-- State label printed by `list_jobs`. -/
def state_str : JobState → String
  | .RUNNING => "Running"
  | .STOPPED => "Stopped"
  | .DONE => "Done"

/-- The `jobs` builtin (`list_jobs`): `No jobs` when empty, else a header
and one row per entry in table order. -/
def list_jobs (s : ShellState) : ShellState × List Action :=
  if s.jobs.length = 0 then (s, [.print "No jobs\n"])
  else
    (s, [Action.print "\nJob ID  PID     State     Command\n",
         Action.print "------  ------  --------  -------\n"]
        ++ s.jobs.map (fun j => Action.print ("[" ++ toString j.job_id
             ++ "]     " ++ toString j.pid ++ "     " ++ state_str j.state
             ++ "   " ++ j.command ++ "\n"))
        ++ [Action.print "\n"])

/- ---------------------------------------------------------------- -/
/- The asynchronous drain (`sigchld_handler`).                        -/
/- ---------------------------------------------------------------- -/

/-- What `WIFEXITED`/`WIFSIGNALED`/`WIFSTOPPED` decode from one reaped
status. -/
inductive ChildStatus where
  | exited
  | signaled
  | stopped
deriving DecidableEq, Repr

/-- A single-quote character, for building the stop notice text. -/
def sq : String := String.singleton (Char.ofNat 39)

/-- One iteration of the drain loop in `sigchld_handler`, for a reaped
`(pid, status)` pair: termination of a tabled job prints a `Done` notice
and removes it (an un-tabled termination is ignored); a stop of a tabled
job updates its state and prints a stop notice; a stop of an un-tabled pid
is promoted via `add_job(pid, "(foreground job)", STOPPED)` and the notice
is printed from `jobs[job_count-1]` — the last table entry, whatever it
is.  Each notice is followed by the reprinted `shell> ` prompt. -/
def handle_event (s : ShellState) (pid : Int) (st : ChildStatus) :
    ShellState × List Action :=
  match find_job_by_pid s.jobs pid with
  | some j =>
    match st with
    | .exited | .signaled =>
      ({ s with jobs := remove_job s.jobs pid },
       [.print ("\n[" ++ toString j.job_id ++ "] Done: " ++ j.command ++ "\n"),
        .print "shell> "])
    | .stopped =>
      ({ s with jobs := update_job_state s.jobs pid .STOPPED },
       [.print ("\n[" ++ toString j.job_id ++ "] Stopped: " ++ j.command ++ "\n"),
        .print "shell> "])
  | none =>
    match st with
    | .exited | .signaled => (s, [])
    | .stopped =>
      let p := add_job s pid "(foreground job)" .STOPPED
      let notice :=
        match p.1.jobs.getLast? with
        | some k =>
          [Action.print ("\n[" ++ toString k.job_id ++ "] Stopped (use "
             ++ sq ++ "fg " ++ toString k.job_id ++ sq ++ " to resume)\n"),
           Action.print "shell> "]
        | none => []
      (p.1, p.2 ++ notice)

/-- `sigchld_handler`: drain every `(pid, status)` pair the kernel returns
from `waitpid(-1, &status, WNOHANG | WUNTRACED)`, in order. -/
def sigchld_handler : ShellState → List (Int × ChildStatus) →
    ShellState × List Action
  | s, [] => (s, [])
  | s, (pid, st) :: evs =>
    let p := handle_event s pid st
    let q := sigchld_handler p.1 evs
    (q.1, p.2 ++ q.2)

/- ---------------------------------------------------------------- -/
/- Reachable shell states.                                           -/
/- ---------------------------------------------------------------- -/

/-- One externally-triggered operation of the shell's main loop or signal
router, as a transition on the table state.  Forked pids and pids reaped
by `waitpid` are positive (the drain loop's guard is `pid > 0`). -/
inductive Step : ShellState → ShellState → Prop where
  | execBg (s : ShellState) (pid : Int) (args : List String) (hp : 0 < pid) :
      Step s (execute_command_bg s pid args).1
  | execFg (s : ShellState) (pid : Int) (w : WaitRes) (hp : 0 < pid) :
      Step s (execute_command_fg s pid w).1
  | fg (s : ShellState) (a : Option String) (w : WaitRes) :
      Step s (fg_builtin s a w).1
  | bg (s : ShellState) (a : Option String) :
      Step s (bg_builtin s a).1
  | kill (s : ShellState) (a : Option String) :
      Step s (kill_builtin s a).1
  | jobsList (s : ShellState) :
      Step s (list_jobs s).1
  | sigchld (s : ShellState) (evs : List (Int × ChildStatus))
      (hp : ∀ e ∈ evs, 0 < (e : Int × ChildStatus).1) :
      Step s (sigchld_handler s evs).1

/-- States reachable from the freshly initialized shell. -/
inductive Reachable : ShellState → Prop where
  | init : Reachable initState
  | step {s s' : ShellState} : Reachable s → Step s s' → Reachable s'

/- ---------------------------------------------------------------- -/
/- Derived notions used in the statements below.                     -/
/- ---------------------------------------------------------------- -/

/-- A concrete state whose table holds exactly `MAX_JOBS` entries
(jobs 1..100 with pids 200..299), for exercising the capacity boundary. -/
def fullState : ShellState :=
  { jobs := (List.range MAX_JOBS).map
      (fun i => { job_id := (i : Int) + 1, pid := (i : Int) + 200,
                  state := .RUNNING, command := "x" }),
    next_job_id := 101 }

/-- Recognizer for the `waitpid` action in a trace. -/
def isWaitCall : Action → Bool
  | .waitCall _ => true
  | _ => false

/-- Recognizer for a `kill(pid, sig)` action in a trace. -/
def isSigsend : Action → Bool
  | .sigsend _ _ => true
  | _ => false

/-- The table/counter invariant maintained by every operation: job ids are
strictly increasing in table order, below `next_job_id` and at least 1,
table pids are positive, and `next_job_id` is at least 1. -/
def Inv (s : ShellState) : Prop :=
  List.Pairwise (· < ·) (s.jobs.map Job.job_id) ∧
  (∀ j ∈ s.jobs, j.job_id < s.next_job_id ∧ 1 ≤ j.job_id ∧ 0 < j.pid) ∧
  1 ≤ s.next_job_id

/-- Effect of one action on the `fg_pid` designator: only `setFg` writes
it. -/
def fgStep (u : Int) (a : Action) : Int :=
  match a with
  | .setFg v => v
  | _ => u

/-- Value of `fg_pid` after running a trace from value `v`. -/
def foldFg (v : Int) (tr : List Action) : Int := tr.foldl fgStep v

/-- Value of `fg_pid` just before the `i`-th action of a trace entered
with `fg_pid = 0`. -/
def fgBefore (tr : List Action) (i : Nat) : Int := foldFg 0 (tr.take i)

/-- An action that neither writes `fg_pid` nor is the blocking wait. -/
def Plain (a : Action) : Prop :=
  (∀ v, a ≠ Action.setFg v) ∧ (∀ p, a ≠ Action.waitCall p)

/-- The foreground-designator protocol of one operation's trace, entered
with `fg_pid = 0`: the designator is 0 again at the end; at the moment of
every blocking wait it holds exactly the waited-on (positive) pid; and
whenever it is non-zero the trace position lies within the synchronous
waiter's span — between the `waitpid` call on that pid and the clearing
store at most two actions later. -/
def FgOk (tr : List Action) : Prop :=
  foldFg 0 tr = 0 ∧
  (∀ i p, tr[i]? = some (Action.waitCall p) → fgBefore tr i = p ∧ 0 < p) ∧
  (∀ i, fgBefore tr i ≠ 0 →
     ∃ j p, j ≤ i ∧ i ≤ j + 2 ∧ tr[j]? = some (Action.waitCall p) ∧
       fgBefore tr i = p)

/- ---------------------------------------------------------------- -/
/- Lemmas about the table primitives.                                -/
/- ---------------------------------------------------------------- -/

lemma remove_job_sublist (t : List Job) (pid : Int) :
    (remove_job t pid).Sublist t := by
  induction t with
  | nil => simp [remove_job]
  | cons j rest ih =>
    by_cases h : j.pid = pid
    · simp only [remove_job, if_pos h]
      exact List.sublist_cons_self j rest
    · simpa [remove_job, h] using ih.cons₂ j

lemma remove_job_of_not_mem (t : List Job) (pid : Int)
    (h : ∀ k ∈ t, k.pid ≠ pid) : remove_job t pid = t := by
  induction t with
  | nil => rfl
  | cons j rest ih =>
    have hj : j.pid ≠ pid := h j (by simp)
    simp only [remove_job, if_neg hj]
    rw [ih (fun k hk => h k (by simp [hk]))]

lemma remove_job_append (t1 : List Job) (j : Job) (t2 : List Job) (pid : Int)
    (hj : j.pid = pid) (h : ∀ k ∈ t1, k.pid ≠ pid) :
    remove_job (t1 ++ j :: t2) pid = t1 ++ t2 := by
  induction t1 with
  | nil => simp [remove_job, hj]
  | cons k t1 ih =>
    have hk : k.pid ≠ pid := h k (by simp)
    simp only [List.cons_append, remove_job, if_neg hk, List.append_eq]
    rw [ih (fun x hx => h x (by simp [hx]))]

lemma update_job_state_map_id (t : List Job) (pid : Int) (st : JobState) :
    (update_job_state t pid st).map Job.job_id = t.map Job.job_id := by
  induction t with
  | nil => rfl
  | cons j rest ih =>
    by_cases h : j.pid = pid <;> simp [update_job_state, h, ih]

lemma mem_update_job_state (t : List Job) (pid : Int) (st : JobState)
    (j : Job) (h : j ∈ update_job_state t pid st) :
    ∃ k ∈ t, j.job_id = k.job_id ∧ j.pid = k.pid := by
  induction t with
  | nil => simp [update_job_state] at h
  | cons k rest ih =>
    by_cases hk : k.pid = pid
    · simp only [update_job_state, if_pos hk, List.mem_cons] at h
      rcases h with h | h
      · exact ⟨k, by simp, by simp [h]⟩
      · exact ⟨j, by simp [h], rfl, rfl⟩
    · simp only [update_job_state, if_neg hk, List.mem_cons] at h
      rcases h with h | h
      · exact ⟨k, by simp, by simp [h]⟩
      · obtain ⟨x, hx, hid, hpid⟩ := ih h
        exact ⟨x, by simp [hx], hid, hpid⟩

lemma set_state_by_id_map_id (t : List Job) (job_id : Int) (st : JobState) :
    (set_state_by_id t job_id st).map Job.job_id = t.map Job.job_id := by
  induction t with
  | nil => rfl
  | cons j rest ih =>
    by_cases h : j.job_id = job_id <;> simp [set_state_by_id, h, ih]

lemma mem_set_state_by_id (t : List Job) (job_id : Int) (st : JobState)
    (j : Job) (h : j ∈ set_state_by_id t job_id st) :
    ∃ k ∈ t, j.job_id = k.job_id ∧ j.pid = k.pid := by
  induction t with
  | nil => simp [set_state_by_id] at h
  | cons k rest ih =>
    by_cases hk : k.job_id = job_id
    · simp only [set_state_by_id, if_pos hk, List.mem_cons] at h
      rcases h with h | h
      · exact ⟨k, by simp, by simp [h]⟩
      · exact ⟨j, by simp [h], rfl, rfl⟩
    · simp only [set_state_by_id, if_neg hk, List.mem_cons] at h
      rcases h with h | h
      · exact ⟨k, by simp, by simp [h]⟩
      · obtain ⟨x, hx, hid, hpid⟩ := ih h
        exact ⟨x, by simp [hx], hid, hpid⟩

lemma find_job_by_id_append (t1 : List Job) (j : Job) (t2 : List Job)
    (h : ∀ k ∈ t1, k.job_id ≠ j.job_id) :
    find_job_by_id (t1 ++ j :: t2) j.job_id = some j := by
  induction t1 with
  | nil => exact List.find?_cons_of_pos _ (by simp)
  | cons k t1 ih =>
    have hk : k.job_id ≠ j.job_id := h k (by simp)
    simp only [find_job_by_id, List.cons_append] at ih ⊢
    rw [List.find?_cons_of_neg _ (by simpa using hk)]
    exact ih (fun x hx => h x (by simp [hx]))

lemma find_job_by_pid_append (t1 : List Job) (j : Job) (t2 : List Job)
    (h : ∀ k ∈ t1, k.pid ≠ j.pid) :
    find_job_by_pid (t1 ++ j :: t2) j.pid = some j := by
  induction t1 with
  | nil => exact List.find?_cons_of_pos _ (by simp)
  | cons k t1 ih =>
    have hk : k.pid ≠ j.pid := h k (by simp)
    simp only [find_job_by_pid, List.cons_append] at ih ⊢
    rw [List.find?_cons_of_neg _ (by simpa using hk)]
    exact ih (fun x hx => h x (by simp [hx]))

lemma set_state_by_id_append (t1 : List Job) (j : Job) (t2 : List Job)
    (st : JobState) (h : ∀ k ∈ t1, k.job_id ≠ j.job_id) :
    set_state_by_id (t1 ++ j :: t2) j.job_id st
      = t1 ++ { j with state := st } :: t2 := by
  induction t1 with
  | nil => simp [set_state_by_id]
  | cons k t1 ih =>
    have hk : k.job_id ≠ j.job_id := h k (by simp)
    simp only [List.cons_append, set_state_by_id, if_neg hk, List.append_eq]
    rw [ih (fun x hx => h x (by simp [hx]))]

lemma update_job_state_append (t1 : List Job) (j : Job) (t2 : List Job)
    (st : JobState) (h : ∀ k ∈ t1, k.pid ≠ j.pid) :
    update_job_state (t1 ++ j :: t2) j.pid st
      = t1 ++ { j with state := st } :: t2 := by
  induction t1 with
  | nil => simp [update_job_state]
  | cons k t1 ih =>
    have hk : k.pid ≠ j.pid := h k (by simp)
    simp only [List.cons_append, update_job_state, if_neg hk, List.append_eq]
    rw [ih (fun x hx => h x (by simp [hx]))]

/- ---------------------------------------------------------------- -/
/- Preservation of the table invariant.                              -/
/- ---------------------------------------------------------------- -/

lemma inv_add (s : ShellState) (pid : Int) (cmd : String) (st : JobState)
    (h : Inv s) (hp : 0 < pid) : Inv (add_job s pid cmd st).1 := by
  obtain ⟨h1, h2, h3⟩ := h
  unfold add_job
  by_cases hf : s.jobs.length ≥ MAX_JOBS
  · simpa [hf] using ⟨h1, h2, h3⟩
  · simp only [hf, if_false]
    refine ⟨?_, ?_, ?_⟩
    · dsimp only
      rw [List.map_append, List.pairwise_append]
      refine ⟨h1, by simp, ?_⟩
      intro a ha b hb
      simp only [List.map_cons, List.map_nil, List.mem_singleton] at hb
      obtain ⟨k, hk, hka⟩ := List.mem_map.mp ha
      have hk2 := h2 k hk
      subst hb
      omega
    · dsimp only
      intro j hj
      rcases List.mem_append.mp hj with hj | hj
      · have := h2 j hj
        exact ⟨by omega, by omega, this.2.2⟩
      · simp only [List.mem_singleton] at hj
        subst hj
        exact ⟨by dsimp only; omega, by dsimp only; omega, hp⟩
    · dsimp only
      omega

lemma inv_remove (s : ShellState) (pid : Int) (h : Inv s) :
    Inv { s with jobs := remove_job s.jobs pid } := by
  obtain ⟨h1, h2, h3⟩ := h
  refine ⟨?_, ?_, h3⟩
  · exact List.Pairwise.sublist ((remove_job_sublist s.jobs pid).map Job.job_id) h1
  · intro j hj
    exact h2 j ((remove_job_sublist s.jobs pid).subset hj)

lemma inv_update (s : ShellState) (pid : Int) (st : JobState) (h : Inv s) :
    Inv { s with jobs := update_job_state s.jobs pid st } := by
  obtain ⟨h1, h2, h3⟩ := h
  refine ⟨?_, ?_, h3⟩
  · show List.Pairwise (· < ·) ((update_job_state s.jobs pid st).map Job.job_id)
    rw [update_job_state_map_id]
    exact h1
  · intro j hj
    obtain ⟨k, hk, hid, hpid⟩ := mem_update_job_state s.jobs pid st j hj
    have := h2 k hk
    dsimp only
    exact ⟨by omega, by omega, by omega⟩

lemma inv_set_state (s : ShellState) (job_id : Int) (st : JobState)
    (h : Inv s) : Inv { s with jobs := set_state_by_id s.jobs job_id st } := by
  obtain ⟨h1, h2, h3⟩ := h
  refine ⟨?_, ?_, h3⟩
  · show List.Pairwise (· < ·) ((set_state_by_id s.jobs job_id st).map Job.job_id)
    rw [set_state_by_id_map_id]
    exact h1
  · intro j hj
    obtain ⟨k, hk, hid, hpid⟩ := mem_set_state_by_id s.jobs job_id st j hj
    have := h2 k hk
    dsimp only
    exact ⟨by omega, by omega, by omega⟩

lemma inv_handle_event (s : ShellState) (pid : Int) (st : ChildStatus)
    (h : Inv s) (hp : 0 < pid) : Inv (handle_event s pid st).1 := by
  cases hf : find_job_by_pid s.jobs pid with
  | some j =>
    cases st with
    | exited => simpa [handle_event, hf] using inv_remove s pid h
    | signaled => simpa [handle_event, hf] using inv_remove s pid h
    | stopped => simpa [handle_event, hf] using inv_update s pid .STOPPED h
  | none =>
    cases st with
    | exited => simpa [handle_event, hf] using h
    | signaled => simpa [handle_event, hf] using h
    | stopped =>
      simpa [handle_event, hf] using
        inv_add s pid "(foreground job)" .STOPPED ⟨h.1, h.2.1, h.2.2⟩ hp

lemma inv_sigchld (evs : List (Int × ChildStatus)) :
    ∀ s : ShellState, Inv s → (∀ e ∈ evs, 0 < (e : Int × ChildStatus).1) →
      Inv (sigchld_handler s evs).1 := by
  induction evs with
  | nil => intro s h _; exact h
  | cons e evs ih =>
    intro s h hp
    obtain ⟨pid, st⟩ := e
    have h1 : Inv (handle_event s pid st).1 :=
      inv_handle_event s pid st h (hp (pid, st) (by simp))
    exact ih _ h1 (fun x hx => hp x (by simp [hx]))

lemma inv_fg (s : ShellState) (a : Option String) (w : WaitRes) (h : Inv s) :
    Inv (fg_builtin s a w).1 := by
  cases a with
  | none => simpa [fg_builtin] using h
  | some t =>
    cases hf : find_job_by_id s.jobs (atoi t) with
    | none => simpa [fg_builtin, hf] using h
    | some j => simpa [fg_builtin, hf] using inv_remove s j.pid h

lemma inv_bg (s : ShellState) (a : Option String) (h : Inv s) :
    Inv (bg_builtin s a).1 := by
  cases a with
  | none => simpa [bg_builtin] using h
  | some t =>
    cases hf : find_job_by_id s.jobs (atoi t) with
    | none => simpa [bg_builtin, hf] using h
    | some j =>
      by_cases hs : j.state = JobState.STOPPED
      · simpa [bg_builtin, hf, hs] using inv_set_state s (atoi t) .RUNNING h
      · simpa [bg_builtin, hf, hs] using h

lemma kill_builtin_fst (s : ShellState) (a : Option String) :
    (kill_builtin s a).1 = s := by
  cases a with
  | none => rfl
  | some t =>
    cases hf : find_job_by_id s.jobs (atoi t) with
    | none => simp [kill_builtin, hf]
    | some j => simp [kill_builtin, hf]

lemma list_jobs_fst (s : ShellState) : (list_jobs s).1 = s := by
  unfold list_jobs
  split <;> rfl

lemma step_inv {s s' : ShellState} (h : Inv s) (hstep : Step s s') : Inv s' := by
  cases hstep with
  | execBg pid args hp =>
    exact inv_add s pid (cmd_string args) .RUNNING h hp
  | execFg pid w hp => exact h
  | fg a w => exact inv_fg s a w h
  | bg a => exact inv_bg s a h
  | kill a => rw [kill_builtin_fst]; exact h
  | jobsList => rw [list_jobs_fst]; exact h
  | sigchld evs hp => exact inv_sigchld evs s h hp

lemma inv_init : Inv initState := by
  refine ⟨by simp [initState], by simp [initState], by simp [initState]⟩

lemma reach_inv {s : ShellState} (h : Reachable s) : Inv s := by
  induction h with
  | init => exact inv_init
  | step _ hstep ih => exact step_inv ih hstep

lemma next_add (s : ShellState) (pid : Int) (cmd : String) (st : JobState) :
    s.next_job_id ≤ (add_job s pid cmd st).1.next_job_id := by
  unfold add_job
  by_cases hf : s.jobs.length ≥ MAX_JOBS <;> simp [hf]

lemma next_handle_event (s : ShellState) (pid : Int) (st : ChildStatus) :
    s.next_job_id ≤ (handle_event s pid st).1.next_job_id := by
  cases hf : find_job_by_pid s.jobs pid with
  | some j => cases st <;> simp [handle_event, hf]
  | none =>
    cases st with
    | exited => simp [handle_event, hf]
    | signaled => simp [handle_event, hf]
    | stopped =>
      simpa [handle_event, hf] using next_add s pid "(foreground job)" .STOPPED

lemma next_sigchld (evs : List (Int × ChildStatus)) :
    ∀ s : ShellState, s.next_job_id ≤ (sigchld_handler s evs).1.next_job_id := by
  induction evs with
  | nil => intro s; exact le_refl _
  | cons e evs ih =>
    intro s
    obtain ⟨pid, st⟩ := e
    exact le_trans (next_handle_event s pid st) (ih (handle_event s pid st).1)

lemma fg_builtin_next (s : ShellState) (a : Option String) (w : WaitRes) :
    (fg_builtin s a w).1.next_job_id = s.next_job_id := by
  cases a with
  | none => rfl
  | some t =>
    cases hf : find_job_by_id s.jobs (atoi t) with
    | none => simp [fg_builtin, hf]
    | some j => simp [fg_builtin, hf]

lemma bg_builtin_next (s : ShellState) (a : Option String) :
    (bg_builtin s a).1.next_job_id = s.next_job_id := by
  cases a with
  | none => rfl
  | some t =>
    cases hf : find_job_by_id s.jobs (atoi t) with
    | none => simp [bg_builtin, hf]
    | some j => by_cases hs : j.state = JobState.STOPPED <;> simp [bg_builtin, hf, hs]

lemma step_next_mono {s s' : ShellState} (hstep : Step s s') :
    s.next_job_id ≤ s'.next_job_id := by
  cases hstep with
  | execBg pid args hp => exact next_add s pid (cmd_string args) .RUNNING
  | execFg pid w hp => exact le_refl _
  | fg a w => rw [fg_builtin_next]
  | bg a => rw [bg_builtin_next]
  | kill a => rw [kill_builtin_fst]
  | jobsList => rw [list_jobs_fst]
  | sigchld evs hp => exact next_sigchld evs s

/- ---------------------------------------------------------------- -/
/- Freshness: ids appearing after a step are old ids or at least the  -/
/- pre-step counter value.                                            -/
/- ---------------------------------------------------------------- -/

lemma ids_add (s : ShellState) (pid : Int) (cmd : String) (st : JobState) :
    ∀ i ∈ (add_job s pid cmd st).1.jobs.map Job.job_id,
      i ∈ s.jobs.map Job.job_id ∨ s.next_job_id ≤ i := by
  unfold add_job
  split
  · intro i hi
    exact Or.inl hi
  · intro i hi
    dsimp only at hi
    rw [List.map_append] at hi
    rcases List.mem_append.mp hi with hi | hi
    · exact Or.inl hi
    · simp only [List.map_cons, List.map_nil, List.mem_singleton] at hi
      subst hi
      exact Or.inr (le_refl _)

lemma ids_remove (t : List Job) (pid : Int) :
    ∀ i ∈ (remove_job t pid).map Job.job_id, i ∈ t.map Job.job_id :=
  fun _ hi => ((remove_job_sublist t pid).map Job.job_id).subset hi

lemma ids_handle_event (s : ShellState) (pid : Int) (st : ChildStatus) :
    ∀ i ∈ (handle_event s pid st).1.jobs.map Job.job_id,
      i ∈ s.jobs.map Job.job_id ∨ s.next_job_id ≤ i := by
  cases hf : find_job_by_pid s.jobs pid with
  | some j =>
    cases st with
    | exited =>
      intro i hi
      simp only [handle_event, hf] at hi
      exact Or.inl (ids_remove s.jobs pid i hi)
    | signaled =>
      intro i hi
      simp only [handle_event, hf] at hi
      exact Or.inl (ids_remove s.jobs pid i hi)
    | stopped =>
      intro i hi
      simp only [handle_event, hf] at hi
      rw [update_job_state_map_id] at hi
      exact Or.inl hi
  | none =>
    cases st with
    | exited => intro i hi; simp only [handle_event, hf] at hi; exact Or.inl hi
    | signaled => intro i hi; simp only [handle_event, hf] at hi; exact Or.inl hi
    | stopped =>
      intro i hi
      simp only [handle_event, hf] at hi
      exact ids_add s pid "(foreground job)" .STOPPED i hi

lemma ids_sigchld (evs : List (Int × ChildStatus)) :
    ∀ s : ShellState, ∀ i ∈ (sigchld_handler s evs).1.jobs.map Job.job_id,
      i ∈ s.jobs.map Job.job_id ∨ s.next_job_id ≤ i := by
  induction evs with
  | nil => intro s i hi; exact Or.inl hi
  | cons e evs ih =>
    intro s i hi
    obtain ⟨pid, st⟩ := e
    have hi' : i ∈ (sigchld_handler (handle_event s pid st).1 evs).1.jobs.map
        Job.job_id := hi
    rcases ih (handle_event s pid st).1 i hi' with h | h
    · exact ids_handle_event s pid st i h
    · exact Or.inr (le_trans (next_handle_event s pid st) h)

lemma ids_step {s s' : ShellState} (hstep : Step s s') :
    ∀ i ∈ s'.jobs.map Job.job_id,
      i ∈ s.jobs.map Job.job_id ∨ s.next_job_id ≤ i := by
  cases hstep with
  | execBg pid args hp => exact ids_add s pid (cmd_string args) .RUNNING
  | execFg pid w hp => exact fun i hi => Or.inl hi
  | fg a w =>
    cases a with
    | none => exact fun i hi => Or.inl hi
    | some t =>
      cases hf : find_job_by_id s.jobs (atoi t) with
      | none =>
        intro i hi
        simp only [fg_builtin, hf] at hi
        exact Or.inl hi
      | some j =>
        intro i hi
        simp only [fg_builtin, hf] at hi
        exact Or.inl (ids_remove s.jobs j.pid i hi)
  | bg a =>
    cases a with
    | none => exact fun i hi => Or.inl hi
    | some t =>
      cases hf : find_job_by_id s.jobs (atoi t) with
      | none =>
        intro i hi
        simp only [bg_builtin, hf] at hi
        exact Or.inl hi
      | some j =>
        by_cases hs : j.state = JobState.STOPPED
        · intro i hi
          simp only [bg_builtin, hf, hs, if_true] at hi
          rw [set_state_by_id_map_id] at hi
          exact Or.inl hi
        · intro i hi
          simp only [bg_builtin, hf, hs, if_false] at hi
          exact Or.inl hi
  | kill a =>
    rw [kill_builtin_fst]
    exact fun i hi => Or.inl hi
  | jobsList =>
    rw [list_jobs_fst]
    exact fun i hi => Or.inl hi
  | sigchld evs hp => exact ids_sigchld evs s

/- ---------------------------------------------------------------- -/
/- The foreground-pid designator protocol.                           -/
/- ---------------------------------------------------------------- -/

lemma fgStep_plain (u : Int) (a : Action) (h : ∀ v, a ≠ Action.setFg v) :
    fgStep u a = u := by
  cases a with
  | setFg v => exact absurd rfl (h v)
  | print s => rfl
  | errPrint s => rfl
  | sigsend p sg => rfl
  | waitCall p => rfl

lemma foldFg_cons (v : Int) (a : Action) (tr : List Action) :
    foldFg v (a :: tr) = foldFg (fgStep v a) tr := rfl

lemma fgBefore_cons_succ (a : Action) (tr : List Action) (i : Nat)
    (h : ∀ v, a ≠ Action.setFg v) :
    fgBefore (a :: tr) (i + 1) = fgBefore tr i := by
  unfold fgBefore
  rw [List.take_succ_cons, foldFg_cons, fgStep_plain 0 a h]

lemma fgok_nil : FgOk [] := by
  refine ⟨rfl, ?_, ?_⟩
  · intro i p h
    simp at h
  · intro i h
    simp [fgBefore, foldFg] at h

lemma fgok_cons (a : Action) (tr : List Action) (ha : Plain a)
    (h : FgOk tr) : FgOk (a :: tr) := by
  obtain ⟨ha1, ha2⟩ := ha
  obtain ⟨h1, h2, h3⟩ := h
  refine ⟨?_, ?_, ?_⟩
  · rw [foldFg_cons, fgStep_plain 0 a ha1]
    exact h1
  · intro i p hp
    cases i with
    | zero =>
      rw [List.getElem?_cons_zero] at hp
      exact absurd (Option.some.inj hp) (ha2 p)
    | succ i =>
      rw [List.getElem?_cons_succ] at hp
      rw [fgBefore_cons_succ a tr i ha1]
      exact h2 i p hp
  · intro i hi
    cases i with
    | zero => exact absurd rfl hi
    | succ i =>
      rw [fgBefore_cons_succ a tr i ha1] at hi
      obtain ⟨j, p, hji, hij, hget, hval⟩ := h3 i hi
      refine ⟨j + 1, p, by omega, by omega, ?_, ?_⟩
      · rw [List.getElem?_cons_succ]
        exact hget
      · rw [fgBefore_cons_succ a tr i ha1]
        exact hval

lemma fgBefore_span3 (p : Int) (tr : List Action) (i : Nat) :
    fgBefore (Action.setFg p :: Action.waitCall p :: Action.setFg 0 :: tr)
        (i + 3)
      = fgBefore tr i := by
  unfold fgBefore
  rw [show i + 3 = (i + 2) + 1 by omega, List.take_succ_cons,
      show i + 2 = (i + 1) + 1 by omega, List.take_succ_cons,
      List.take_succ_cons]
  rfl

lemma fgok_span3 (p : Int) (tr : List Action) (hp : 0 < p) (h : FgOk tr) :
    FgOk (Action.setFg p :: Action.waitCall p :: Action.setFg 0 :: tr) := by
  obtain ⟨h1, h2, h3⟩ := h
  refine ⟨h1, ?_, ?_⟩
  · intro i q hget
    rcases i with _ | (_ | (_ | i))
    · rw [List.getElem?_cons_zero] at hget
      simp at hget
    · rw [List.getElem?_cons_succ, List.getElem?_cons_zero] at hget
      have hq : q = p := by
        have := Option.some.inj hget
        injection this with h
        omega
      subst hq
      exact ⟨rfl, hp⟩
    · rw [List.getElem?_cons_succ, List.getElem?_cons_succ,
          List.getElem?_cons_zero] at hget
      simp at hget
    · rw [List.getElem?_cons_succ, List.getElem?_cons_succ,
          List.getElem?_cons_succ] at hget
      have := h2 i q hget
      rw [show i + 1 + 1 + 1 = i + 3 by omega, fgBefore_span3]
      exact this
  · intro i hi
    rcases i with _ | (_ | (_ | i))
    · exact absurd rfl hi
    · exact ⟨1, p, by omega, by omega, rfl, rfl⟩
    · exact ⟨1, p, by omega, by omega, rfl, rfl⟩
    · rw [show i + 1 + 1 + 1 = i + 3 by omega, fgBefore_span3] at hi
      obtain ⟨j, q, hji, hij, hget, hval⟩ := h3 i hi
      refine ⟨j + 3, q, by omega, by omega, ?_, ?_⟩
      · rw [show j + 3 = j + 2 + 1 by omega, List.getElem?_cons_succ,
            show j + 2 = j + 1 + 1 by omega, List.getElem?_cons_succ,
            List.getElem?_cons_succ]
        exact hget
      · rw [show i + 1 + 1 + 1 = i + 3 by omega, fgBefore_span3]
        exact hval

lemma fgBefore_span4 (p : Int) (m : String) (tr : List Action) (i : Nat) :
    fgBefore (Action.setFg p :: Action.waitCall p :: Action.errPrint m ::
        Action.setFg 0 :: tr) (i + 4)
      = fgBefore tr i := by
  unfold fgBefore
  rw [show i + 4 = (i + 3) + 1 by omega, List.take_succ_cons,
      show i + 3 = (i + 2) + 1 by omega, List.take_succ_cons,
      show i + 2 = (i + 1) + 1 by omega, List.take_succ_cons,
      List.take_succ_cons]
  rfl

lemma fgok_span4 (p : Int) (m : String) (tr : List Action) (hp : 0 < p)
    (h : FgOk tr) :
    FgOk (Action.setFg p :: Action.waitCall p :: Action.errPrint m ::
      Action.setFg 0 :: tr) := by
  obtain ⟨h1, h2, h3⟩ := h
  refine ⟨h1, ?_, ?_⟩
  · intro i q hget
    rcases i with _ | (_ | (_ | (_ | i)))
    · rw [List.getElem?_cons_zero] at hget
      simp at hget
    · rw [List.getElem?_cons_succ, List.getElem?_cons_zero] at hget
      have hq : q = p := by
        have := Option.some.inj hget
        injection this with h
        omega
      subst hq
      exact ⟨rfl, hp⟩
    · rw [List.getElem?_cons_succ, List.getElem?_cons_succ,
          List.getElem?_cons_zero] at hget
      simp at hget
    · rw [List.getElem?_cons_succ, List.getElem?_cons_succ,
          List.getElem?_cons_succ, List.getElem?_cons_zero] at hget
      simp at hget
    · rw [List.getElem?_cons_succ, List.getElem?_cons_succ,
          List.getElem?_cons_succ, List.getElem?_cons_succ] at hget
      have := h2 i q hget
      rw [show i + 1 + 1 + 1 + 1 = i + 4 by omega, fgBefore_span4]
      exact this
  · intro i hi
    rcases i with _ | (_ | (_ | (_ | i)))
    · exact absurd rfl hi
    · exact ⟨1, p, by omega, by omega, rfl, rfl⟩
    · exact ⟨1, p, by omega, by omega, rfl, rfl⟩
    · exact ⟨1, p, by omega, by omega, rfl, rfl⟩
    · rw [show i + 1 + 1 + 1 + 1 = i + 4 by omega, fgBefore_span4] at hi
      obtain ⟨j, q, hji, hij, hget, hval⟩ := h3 i hi
      refine ⟨j + 4, q, by omega, by omega, ?_, ?_⟩
      · rw [show j + 4 = j + 3 + 1 by omega, List.getElem?_cons_succ,
            show j + 3 = j + 2 + 1 by omega, List.getElem?_cons_succ,
            show j + 2 = j + 1 + 1 by omega, List.getElem?_cons_succ,
            List.getElem?_cons_succ]
        exact hget
      · rw [show i + 1 + 1 + 1 + 1 = i + 4 by omega, fgBefore_span4]
        exact hval

lemma fgok_wait (p : Int) (w : WaitRes) (hp : 0 < p) :
    FgOk (wait_for_fg p w) := by
  cases w with
  | ok b => exact fgok_span3 p [] hp fgok_nil
  | err e =>
    by_cases he : e = Errno.ECHILD
    · subst he
      exact fgok_span3 p [] hp fgok_nil
    · simp only [wait_for_fg, if_neg he]
      exact fgok_span4 p ("waitpid error: " ++ errnoStr e ++ "\n") [] hp fgok_nil

lemma fgok_of_plain (tr : List Action) (h : ∀ a ∈ tr, Plain a) : FgOk tr := by
  induction tr with
  | nil => exact fgok_nil
  | cons a tr ih =>
    exact fgok_cons a tr (h a (by simp)) (ih (fun x hx => h x (by simp [hx])))

lemma add_job_plain (s : ShellState) (pid : Int) (cmd : String)
    (st : JobState) : ∀ a ∈ (add_job s pid cmd st).2, Plain a := by
  unfold add_job
  split <;> simp [Plain]

lemma execute_command_bg_plain (s : ShellState) (pid : Int)
    (args : List String) : ∀ a ∈ (execute_command_bg s pid args).2, Plain a := by
  intro a ha
  unfold execute_command_bg at ha
  rcases List.mem_append.mp ha with h | h
  · exact add_job_plain s pid (cmd_string args) .RUNNING a h
  · rcases hg : (add_job s pid (cmd_string args) .RUNNING).1.jobs.getLast?
      with _ | j
    · rw [hg] at h
      simp at h
    · rw [hg] at h
      simp only [List.mem_singleton] at h
      subst h
      simp [Plain]

lemma handle_event_plain (s : ShellState) (pid : Int) (st : ChildStatus) :
    ∀ a ∈ (handle_event s pid st).2, Plain a := by
  cases hf : find_job_by_pid s.jobs pid with
  | some j => cases st <;> simp [handle_event, hf, Plain]
  | none =>
    cases st with
    | exited => simp [handle_event, hf]
    | signaled => simp [handle_event, hf]
    | stopped =>
      intro a ha
      simp only [handle_event, hf] at ha
      rcases List.mem_append.mp ha with h | h
      · exact add_job_plain s pid "(foreground job)" .STOPPED a h
      · rcases hg : (add_job s pid "(foreground job)" .STOPPED).1.jobs.getLast?
          with _ | k
        · rw [hg] at h
          simp at h
        · rw [hg] at h
          simp only [List.mem_cons, List.mem_singleton, List.not_mem_nil,
            or_false] at h
          rcases h with h | h <;> subst h <;> simp [Plain]

lemma sigchld_handler_plain (evs : List (Int × ChildStatus)) :
    ∀ s : ShellState, ∀ a ∈ (sigchld_handler s evs).2, Plain a := by
  induction evs with
  | nil => intro s a ha; simp [sigchld_handler] at ha
  | cons e evs ih =>
    intro s a ha
    obtain ⟨pid, st⟩ := e
    simp only [sigchld_handler] at ha
    rcases List.mem_append.mp ha with h | h
    · exact handle_event_plain s pid st a h
    · exact ih (handle_event s pid st).1 a h

lemma bg_builtin_plain (s : ShellState) (a : Option String) :
    ∀ x ∈ (bg_builtin s a).2, Plain x := by
  cases a with
  | none => simp [bg_builtin, Plain]
  | some t =>
    cases hf : find_job_by_id s.jobs (atoi t) with
    | none => simp [bg_builtin, hf, Plain]
    | some j =>
      by_cases hs : j.state = JobState.STOPPED <;>
        simp [bg_builtin, hf, hs, Plain]

lemma kill_builtin_plain (s : ShellState) (a : Option String) :
    ∀ x ∈ (kill_builtin s a).2, Plain x := by
  cases a with
  | none => simp [kill_builtin, Plain]
  | some t =>
    cases hf : find_job_by_id s.jobs (atoi t) with
    | none => simp [kill_builtin, hf, Plain]
    | some j => simp [kill_builtin, hf, Plain]

lemma list_jobs_plain (s : ShellState) : ∀ x ∈ (list_jobs s).2, Plain x := by
  unfold list_jobs
  split
  · simp [Plain]
  · intro x hx
    simp only [List.mem_append, List.mem_cons, List.mem_singleton,
      List.not_mem_nil, or_false] at hx
    rcases hx with ((rfl | rfl) | hx) | rfl
    · simp [Plain]
    · simp [Plain]
    · obtain ⟨j, hj, hxj⟩ := List.mem_map.mp hx
      subst hxj
      simp [Plain]
    · simp [Plain]

lemma fgok_fg_builtin (s : ShellState) (a : Option String) (w : WaitRes)
    (hs : Reachable s) : FgOk (fg_builtin s a w).2 := by
  cases a with
  | none => exact fgok_of_plain _ (by simp [fg_builtin, Plain])
  | some t =>
    cases hf : find_job_by_id s.jobs (atoi t) with
    | none =>
      apply fgok_of_plain
      simp [fg_builtin, hf, Plain]
    | some j =>
      have hj : j ∈ s.jobs := List.mem_of_find?_eq_some hf
      have hpid : 0 < j.pid := ((reach_inv hs).2.1 j hj).2.2
      by_cases hst : j.state = JobState.STOPPED
      · have htr : (fg_builtin s (some t) w).2
            = Action.sigsend j.pid SIGCONT
              :: Action.print ("Bringing job [" ++ toString (atoi t)
                    ++ "] to foreground: " ++ j.command ++ "\n")
              :: wait_for_fg j.pid w := by
          simp [fg_builtin, hf, hst]
        rw [htr]
        exact fgok_cons _ _ (by simp [Plain])
          (fgok_cons _ _ (by simp [Plain]) (fgok_wait j.pid w hpid))
      · have htr : (fg_builtin s (some t) w).2
            = Action.print ("Bringing job [" ++ toString (atoi t)
                  ++ "] to foreground: " ++ j.command ++ "\n")
              :: wait_for_fg j.pid w := by
          simp [fg_builtin, hf, hst]
        rw [htr]
        exact fgok_cons _ _ (by simp [Plain]) (fgok_wait j.pid w hpid)

/-- Shared helper: state change of `bg` on a stopped job. -/
lemma bg_builtin_stopped (s : ShellState) (a : String) (j : Job)
    (hf : find_job_by_id s.jobs (atoi a) = some j)
    (hst : j.state = JobState.STOPPED) :
    (bg_builtin s (some a)).1
      = { s with jobs := set_state_by_id s.jobs (atoi a) JobState.RUNNING } := by
  simp [bg_builtin, hf, hst]

/-- Shared helper: all three id-taking builtins, on a failed lookup, report
`Job [id] not found` and leave the state untouched. -/
lemma builtins_not_found (s : ShellState) (a : String) (w : WaitRes)
    (h : find_job_by_id s.jobs (atoi a) = none) :
    fg_builtin s (some a) w
      = (s, [Action.print ("Job [" ++ toString (atoi a) ++ "] not found\n")]) ∧
    bg_builtin s (some a)
      = (s, [Action.print ("Job [" ++ toString (atoi a) ++ "] not found\n")]) ∧
    kill_builtin s (some a)
      = (s, [Action.print ("Job [" ++ toString (atoi a) ++ "] not found\n")]) := by
  refine ⟨?_, ?_, ?_⟩ <;> simp [fg_builtin, bg_builtin, kill_builtin, h]

/- ---------------------------------------------------------------- -/
/- Claim theorems.                                                   -/
/- ---------------------------------------------------------------- -/

/-- C1: the claim says the `fg` builtin leaves the table entry in place
when the synchronous wait returns because the child stopped, removing the
entry only on termination.  The code instead calls `remove_job`
unconditionally after `wait_for_fg` returns: here the wait on job 1's pid
42 returns a stopped status (`.ok true`, `WIFSTOPPED`), and the entry is
removed anyway (the resulting table is empty). -/
theorem fg_removes_entry_even_on_stop :
    (fg_builtin { jobs := [{ job_id := 1, pid := 42, state := .STOPPED,
                             command := "sleep 60 " }], next_job_id := 2 }
       (some "1") (.ok true)).1.jobs = [] := by decide

/-- C2 counterexample: an `EINTR` failure of the kernel wait call is not
retried (exactly one `waitpid` call appears in the trace) and *is*
reported as an error (a `perror` line appears), contrary to the claim that
it is retried transparently and not reported. -/
theorem wait_eintr_reported_not_retried :
    Action.errPrint "waitpid error: Interrupted system call\n"
        ∈ wait_for_fg 42 (.err .EINTR) ∧
    (wait_for_fg 42 (.err .EINTR)).countP isWaitCall = 1 := by decide

/-- C2 amended: every invocation of the synchronous foreground wait issues
exactly one kernel wait call (no retry loop exists), and an error line is
reported if and only if the call failed with an `errno` other than
`ECHILD`; in particular `ECHILD` is swallowed but `EINTR` is reported. -/
theorem wait_error_policy (pid : Int) (w : WaitRes) :
    (wait_for_fg pid w).countP isWaitCall = 1 ∧
    ((∃ m, Action.errPrint m ∈ wait_for_fg pid w)
       ↔ ∃ e, w = WaitRes.err e ∧ e ≠ Errno.ECHILD) := by
  cases w with
  | ok b =>
    constructor
    · simp [wait_for_fg, List.countP_cons, isWaitCall]
    · constructor
      · rintro ⟨m, hm⟩
        simp [wait_for_fg] at hm
      · rintro ⟨e, he, _⟩
        cases he
  | err e =>
    by_cases he : e = Errno.ECHILD
    · subst he
      constructor
      · simp [wait_for_fg, List.countP_cons, isWaitCall]
      · constructor
        · rintro ⟨m, hm⟩
          simp [wait_for_fg] at hm
        · rintro ⟨e', he', hne⟩
          injection he' with h
          exact absurd h.symm hne
    · constructor
      · simp [wait_for_fg, he, List.countP_cons, isWaitCall]
      · constructor
        · intro _
          exact ⟨e, rfl, he⟩
        · intro _
          refine ⟨"waitpid error: " ++ errnoStr e ++ "\n", ?_⟩
          simp [wait_for_fg, he]

/-- C2 amended, instantiated: at `EINVAL` the error line is present and
the wait call was issued exactly once. -/
theorem wait_error_policy_witness :
    (wait_for_fg 7 (.err .EINVAL)).countP isWaitCall = 1 ∧
    (∃ m, Action.errPrint m ∈ wait_for_fg 7 (.err .EINVAL)) :=
  ⟨(wait_error_policy 7 (.err .EINVAL)).1,
   ((wait_error_policy 7 (.err .EINVAL)).2).mpr ⟨.EINVAL, rfl, by decide⟩⟩

/-- C3: with the table already holding `MAX_JOBS` entries, a background
spawn reports `Job queue full` and leaves the table size at `MAX_JOBS` —
but, contrary to the claim, the caller never terminates the child it just
forked: no `kill` of any kind appears in the launcher's trace, so the
child (pid 4242) is left running untracked. -/
theorem full_table_spawn_leaves_orphan :
    (execute_command_bg fullState 4242 ["sleep", "100"]).1.jobs.length
        = MAX_JOBS ∧
    Action.print "Job queue full\n"
        ∈ (execute_command_bg fullState 4242 ["sleep", "100"]).2 ∧
    ∀ a ∈ (execute_command_bg fullState 4242 ["sleep", "100"]).2,
      isSigsend a = false := by decide

/-- C4: (a) in every reachable state the table's job ids are pairwise
distinct and strictly below the `next_job_id` counter; (b) the counter
never decreases across any operation; (c) a successful insertion assigns
exactly the current counter value and bumps it; and (d) any id present
after an operation was either already in the table before it or is at
least the pre-operation counter value.  Together these give that the id
assigned by each successful insertion is strictly greater than every id
assigned before it in the session — an earlier id was below the counter
at its own assignment (c), the counter never shrinks (b), and a removed
id can never reappear (d) — so ids are never reused. -/
theorem job_ids_distinct_and_monotone :
    (∀ s : ShellState, Reachable s →
       List.Pairwise (fun a b => a ≠ b) (s.jobs.map Job.job_id) ∧
       ∀ i ∈ s.jobs.map Job.job_id, i < s.next_job_id) ∧
    (∀ s s' : ShellState, Step s s' → s.next_job_id ≤ s'.next_job_id) ∧
    (∀ (s : ShellState) (pid : Int) (cmd : String) (st : JobState),
       s.jobs.length < MAX_JOBS →
       (add_job s pid cmd st).1.jobs.map Job.job_id
           = s.jobs.map Job.job_id ++ [s.next_job_id] ∧
       (add_job s pid cmd st).1.next_job_id = s.next_job_id + 1) ∧
    (∀ s s' : ShellState, Step s s' →
       ∀ i ∈ s'.jobs.map Job.job_id,
         i ∈ s.jobs.map Job.job_id ∨ s.next_job_id ≤ i) := by
  refine ⟨?_, ?_, ?_, ?_⟩
  · intro s hs
    obtain ⟨h1, h2, h3⟩ := reach_inv hs
    refine ⟨h1.imp (fun hab => ne_of_lt hab), ?_⟩
    intro i hi
    obtain ⟨j, hj, hji⟩ := List.mem_map.mp hi
    have := h2 j hj
    omega
  · intro s s' h
    exact step_next_mono h
  · intro s pid cmd st hlen
    have hnf : ¬ (s.jobs.length ≥ MAX_JOBS) := by omega
    constructor
    · simp [add_job, hnf]
    · simp [add_job, hnf]
  · intro s s' h
    exact ids_step h

/-- C4 instantiated at the initial state. -/
theorem job_ids_distinct_and_monotone_witness :
    List.Pairwise (fun a b => a ≠ b) (initState.jobs.map Job.job_id) ∧
    ∀ i ∈ initState.jobs.map Job.job_id, i < initState.next_job_id :=
  job_ids_distinct_and_monotone.1 initState Reachable.init

/-- C5 counterexample: when the drain reaps a stopped status for pid 999,
unknown to a *full* table, the pid is **not** inserted (the `add_job`
inside the promotion fails with `Job queue full`) and the stop notice
printed from `jobs[job_count-1]` cites the id of the last *existing*
entry (100), not a newly assigned id — contrary to the claim, which
asserts unconditional insertion and a notice with the new id. -/
theorem fg_promotion_full_counterexample :
    find_job_by_pid ((handle_event fullState 999 .stopped).1.jobs) 999 = none ∧
    (handle_event fullState 999 .stopped).1.jobs.length = MAX_JOBS ∧
    (handle_event fullState 999 .stopped).2
      = [Action.print "Job queue full\n",
         Action.print ("\n[100] Stopped (use " ++ sq ++ "fg 100" ++ sq
             ++ " to resume)\n"),
         Action.print "shell> "] := by decide

/-- C5 amended: provided the table is not full, a stopped status for a pid
with no table entry promotes that pid into the table with state `STOPPED`
and the opaque label `(foreground job)`, and prints the stop notice
referencing the newly assigned job id (followed by the reprinted
prompt). -/
theorem fg_stop_promotion (s : ShellState) (pid : Int)
    (hlen : s.jobs.length < MAX_JOBS)
    (hfind : find_job_by_pid s.jobs pid = none) :
    (handle_event s pid .stopped).1.jobs
      = s.jobs ++ [{ job_id := s.next_job_id, pid := pid,
                     state := .STOPPED, command := "(foreground job)" }] ∧
    (handle_event s pid .stopped).2
      = [Action.print ("\n[" ++ toString s.next_job_id ++ "] Stopped (use "
           ++ sq ++ "fg " ++ toString s.next_job_id ++ sq ++ " to resume)\n"),
         Action.print "shell> "] := by
  have hcmd : String.mk ("(foreground job)".data.take (MAX_LINE - 1))
      = "(foreground job)" := by decide
  have hnf : ¬ (s.jobs.length ≥ MAX_JOBS) := by omega
  constructor
  · simp [handle_event, hfind, add_job, hnf, hcmd]
  · simp [handle_event, hfind, add_job, hnf, hcmd, List.getLast?_concat]

/-- C5 amended, instantiated: promoting pid 7 into the empty table. -/
theorem fg_stop_promotion_witness :
    initState.jobs.length < MAX_JOBS ∧
    (handle_event initState 7 .stopped).1.jobs
      = initState.jobs ++ [{ job_id := initState.next_job_id, pid := 7,
                             state := .STOPPED,
                             command := "(foreground job)" }] :=
  ⟨by decide, (fg_stop_promotion initState 7 (by decide) (by decide)).1⟩

/-- C6: on a stopped job (the first entry carrying its id, with no earlier
entry sharing its pid), `bg` flips the state to `RUNNING`; a subsequently
reaped stop notification flips it back to `STOPPED`; a second `bg` flips
it to `RUNNING` again.  In all three resulting tables the entry keeps its
`job_id` and `command` fields (only `state` is rewritten), and all other
entries are untouched. -/
theorem bg_stop_bg_roundtrip (s : ShellState) (t1 t2 : List Job) (j : Job)
    (a : String) (hjobs : s.jobs = t1 ++ j :: t2)
    (hst : j.state = JobState.STOPPED) (ha : atoi a = j.job_id)
    (hid : ∀ k ∈ t1, k.job_id ≠ j.job_id)
    (hpid : ∀ k ∈ t1, k.pid ≠ j.pid) :
    (bg_builtin s (some a)).1.jobs
        = t1 ++ { j with state := JobState.RUNNING } :: t2 ∧
    (sigchld_handler (bg_builtin s (some a)).1 [(j.pid, .stopped)]).1.jobs
        = t1 ++ { j with state := JobState.STOPPED } :: t2 ∧
    (bg_builtin (sigchld_handler (bg_builtin s (some a)).1
          [(j.pid, .stopped)]).1 (some a)).1.jobs
        = t1 ++ { j with state := JobState.RUNNING } :: t2 := by
  have hfind1 : find_job_by_id s.jobs (atoi a) = some j := by
    rw [ha, hjobs]
    exact find_job_by_id_append t1 j t2 hid
  have h1 : (bg_builtin s (some a)).1.jobs
      = t1 ++ { j with state := JobState.RUNNING } :: t2 := by
    have : (bg_builtin s (some a)).1.jobs
        = set_state_by_id s.jobs (atoi a) JobState.RUNNING := by
      simp [bg_builtin, hfind1, hst]
    rw [this, ha, hjobs]
    exact set_state_by_id_append t1 j t2 JobState.RUNNING hid
  have hfind2 : find_job_by_pid (bg_builtin s (some a)).1.jobs j.pid
      = some { j with state := JobState.RUNNING } := by
    rw [h1]
    exact find_job_by_pid_append t1 { j with state := JobState.RUNNING } t2
      (fun k hk => by simpa using hpid k hk)
  have h2 : (sigchld_handler (bg_builtin s (some a)).1
        [(j.pid, .stopped)]).1.jobs
      = t1 ++ { j with state := JobState.STOPPED } :: t2 := by
    have hh : (sigchld_handler (bg_builtin s (some a)).1
          [(j.pid, .stopped)]).1.jobs
        = update_job_state (bg_builtin s (some a)).1.jobs j.pid
            JobState.STOPPED := by
      simp [sigchld_handler, handle_event, hfind2]
    rw [hh, h1]
    exact update_job_state_append t1 { j with state := JobState.RUNNING } t2
      JobState.STOPPED (fun k hk => by simpa using hpid k hk)
  have hfind3 : find_job_by_id (sigchld_handler (bg_builtin s (some a)).1
        [(j.pid, .stopped)]).1.jobs (atoi a)
      = some { j with state := JobState.STOPPED } := by
    rw [h2, ha]
    exact find_job_by_id_append t1 { j with state := JobState.STOPPED } t2
      (fun k hk => by simpa using hid k hk)
  have h3 : (bg_builtin (sigchld_handler (bg_builtin s (some a)).1
        [(j.pid, .stopped)]).1 (some a)).1.jobs
      = t1 ++ { j with state := JobState.RUNNING } :: t2 := by
    have hh : (bg_builtin (sigchld_handler (bg_builtin s (some a)).1
          [(j.pid, .stopped)]).1 (some a)).1.jobs
        = set_state_by_id (sigchld_handler (bg_builtin s (some a)).1
            [(j.pid, .stopped)]).1.jobs (atoi a) JobState.RUNNING := by
      rw [bg_builtin_stopped _ a { j with state := JobState.STOPPED } hfind3 rfl]
    rw [hh, h2, ha]
    exact set_state_by_id_append t1 { j with state := JobState.STOPPED } t2
      JobState.RUNNING (fun k hk => by simpa using hid k hk)
  exact ⟨h1, h2, h3⟩

/-- C6 instantiated on a one-entry table. -/
theorem bg_stop_bg_roundtrip_witness :
    (bg_builtin { jobs := [{ job_id := 1, pid := 42,
                             state := JobState.STOPPED,
                             command := "sleep 30 " }], next_job_id := 2 }
        (some "1")).1.jobs
      = [{ job_id := 1, pid := 42, state := JobState.RUNNING,
           command := "sleep 30 " }] :=
  (bg_stop_bg_roundtrip
    { jobs := [{ job_id := 1, pid := 42, state := JobState.STOPPED,
                 command := "sleep 30 " }], next_job_id := 2 }
    [] []
    { job_id := 1, pid := 42, state := JobState.STOPPED,
      command := "sleep 30 " }
    "1" rfl rfl (by decide)
    (fun k hk => by simp at hk) (fun k hk => by simp at hk)).1

/-- C7: the foreground-pid designator protocol, for the trace of every
externally-visible operation entered with `fg_pid = 0`: the designator is
0 again when the operation returns to the prompt; at every kernel wait
call it holds exactly the (positive) pid being waited on; and it is
non-zero only at positions within the synchronous waiter's span — between
the wait call on that pid and the clearing store at most two actions
later.  The `fg` case assumes a reachable state (table pids are positive);
the launcher cases assume the forked pid is positive. -/
theorem fg_designator_protocol :
    (∀ (s : ShellState) (pid : Int) (args : List String),
        FgOk (execute_command_bg s pid args).2) ∧
    (∀ (s : ShellState) (pid : Int) (w : WaitRes), 0 < pid →
        FgOk (execute_command_fg s pid w).2) ∧
    (∀ (s : ShellState) (a : Option String) (w : WaitRes), Reachable s →
        FgOk (fg_builtin s a w).2) ∧
    (∀ (s : ShellState) (a : Option String), FgOk (bg_builtin s a).2) ∧
    (∀ (s : ShellState) (a : Option String), FgOk (kill_builtin s a).2) ∧
    (∀ s : ShellState, FgOk (list_jobs s).2) ∧
    (∀ (s : ShellState) (evs : List (Int × ChildStatus)),
        FgOk (sigchld_handler s evs).2) := by
  refine ⟨?_, ?_, ?_, ?_, ?_, ?_, ?_⟩
  · intro s pid args
    exact fgok_of_plain _ (execute_command_bg_plain s pid args)
  · intro s pid w hp
    exact fgok_wait pid w hp
  · intro s a w hs
    exact fgok_fg_builtin s a w hs
  · intro s a
    exact fgok_of_plain _ (bg_builtin_plain s a)
  · intro s a
    exact fgok_of_plain _ (kill_builtin_plain s a)
  · intro s
    exact fgok_of_plain _ (list_jobs_plain s)
  · intro s evs
    exact fgok_of_plain _ (sigchld_handler_plain evs s)

/-- C7 instantiated: a foreground launch of pid 5. -/
theorem fg_designator_protocol_witness :
    (0 : Int) < 5 ∧ FgOk (execute_command_fg initState 5 (.ok false)).2 :=
  ⟨by decide, fg_designator_protocol.2.1 initState 5 (.ok false) (by decide)⟩

/-- C8: `fg`, `bg` and `kill` on an argument whose id has no table entry
each print exactly `Job [id] not found` and return the state — table,
every entry, and the `next_job_id` counter — unchanged. -/
theorem lookup_fail_no_mutation (s : ShellState) (a : String) (w : WaitRes)
    (h : find_job_by_id s.jobs (atoi a) = none) :
    fg_builtin s (some a) w
      = (s, [Action.print ("Job [" ++ toString (atoi a) ++ "] not found\n")]) ∧
    bg_builtin s (some a)
      = (s, [Action.print ("Job [" ++ toString (atoi a) ++ "] not found\n")]) ∧
    kill_builtin s (some a)
      = (s, [Action.print ("Job [" ++ toString (atoi a) ++ "] not found\n")]) :=
  builtins_not_found s a w h

/-- C8 instantiated: `bg 5` on the empty table. -/
theorem lookup_fail_no_mutation_witness :
    find_job_by_id initState.jobs (atoi "5") = none ∧
    bg_builtin initState (some "5")
      = (initState,
         [Action.print ("Job [" ++ toString (atoi "5") ++ "] not found\n")]) :=
  ⟨by decide,
   (lookup_fail_no_mutation initState "5" (.ok false) (by decide)).2.1⟩

/-- C9: `remove_job` on a pid not present leaves the table unchanged; on
the (first) entry carrying a present pid it removes exactly that entry and
preserves the relative order of all remaining entries. -/
theorem remove_job_correct (t : List Job) (pid : Int) :
    ((∀ k ∈ t, k.pid ≠ pid) → remove_job t pid = t) ∧
    (∀ t1 j t2, t = t1 ++ j :: t2 → j.pid = pid →
       (∀ k ∈ t1, k.pid ≠ pid) → remove_job t pid = t1 ++ t2) := by
  constructor
  · exact remove_job_of_not_mem t pid
  · intro t1 j t2 ht hj h
    subst ht
    exact remove_job_append t1 j t2 pid hj h

/-- C9 instantiated on a two-entry table. -/
theorem remove_job_correct_witness :
    remove_job
        [{ job_id := 1, pid := 5, state := JobState.RUNNING, command := "a" },
         { job_id := 2, pid := 6, state := JobState.RUNNING, command := "b" }] 6
      = [{ job_id := 1, pid := 5, state := JobState.RUNNING, command := "a" }] :=
  (remove_job_correct _ 6).2
    [{ job_id := 1, pid := 5, state := JobState.RUNNING, command := "a" }]
    { job_id := 2, pid := 6, state := JobState.RUNNING, command := "b" } []
    rfl rfl (by decide)

/-- C10 counterexample: the token `7x` does not parse as a positive
integer, yet `atoi` converts its numeric prefix to 7 — not 0 — so `fg 7x`
on the empty table reports `Job [7] not found` (and not `Job [0] not
found` as the claim asserts), still mutating nothing. -/
theorem numeric_prefix_arg_counterexample :
    atoi "7x" = 7 ∧
    (fg_builtin initState (some "7x") (.ok false)).2
        = [Action.print "Job [7] not found\n"] ∧
    (fg_builtin initState (some "7x") (.ok false)).2
        ≠ [Action.print "Job [0] not found\n"] ∧
    (fg_builtin initState (some "7x") (.ok false)).1 = initState := by decide

/-- C10 amended: an argument token with no leading numeric prefix (so that
`atoi` yields 0, e.g. a fully non-numeric string) is interpreted as job
id 0; since every id in a reachable table is at least 1, each of `fg`,
`bg` and `kill` reports `Job [0] not found` and mutates nothing.  (A token
with a numeric prefix, such as `7x`, is instead interpreted as that
prefix's value.) -/
theorem atoi_zero_not_found (s : ShellState) (a : String) (w : WaitRes)
    (hs : Reachable s) (ha : atoi a = 0) :
    fg_builtin s (some a) w = (s, [Action.print "Job [0] not found\n"]) ∧
    bg_builtin s (some a) = (s, [Action.print "Job [0] not found\n"]) ∧
    kill_builtin s (some a) = (s, [Action.print "Job [0] not found\n"]) := by
  have hinv := reach_inv hs
  have hfind : find_job_by_id s.jobs (atoi a) = none := by
    rw [ha]
    apply List.find?_eq_none.mpr
    intro j hj
    have h1 := (hinv.2.1 j hj).2.1
    simp only [beq_iff_eq]
    omega
  have h := builtins_not_found s a w hfind
  have h0 : ("Job [" ++ toString (0 : Int) ++ "] not found\n")
      = "Job [0] not found\n" := rfl
  rw [ha, h0] at h
  exact h

/-- C10 amended, instantiated: `kill abc` on the empty table. -/
theorem atoi_zero_not_found_witness :
    atoi "abc" = 0 ∧
    kill_builtin initState (some "abc")
      = (initState, [Action.print "Job [0] not found\n"]) :=
  ⟨by decide,
   (atoi_zero_not_found initState "abc" (.ok false) Reachable.init
      (by decide)).2.2⟩

end JobSched
